import Mathlib

/-!
Verification of the PSO engine of the openvsp-pso-optimizer repository.

The authoritative driver is src/v12_cessna_pso.py (v10/v11 are earlier
variants of the same loop).  The script is shallowly embedded below:

* Python floats are modelled as exact rationals (ℚ); the literal 1e30 is
  modelled as 10^30.
* `random.random()` is modelled as an arbitrary stream `rng : ℕ → ℚ` of
  draws, consumed in program order through a counter `rngIdx` threaded in
  the state (the script fixes a seed, so the run is a deterministic
  function of the stream).
* The objective `FCN` (from v12_cessna_opt.py) is an external evaluator:
  it is modelled as `List ℚ → Option ℚ`, where `none` models a Python
  exception escaping the call (the auxiliary CL/CD/LD metrics returned
  alongside the fitness are dropped: the driver only logs/plots them).
  The driver calls `FCN` with no try/except, so in the embedding an
  exception propagates through `Except` and aborts the run.
* `xgbest` is only ever assigned inside `if y < gbest[...]` branches, so a
  run in which no branch fires leaves the Python name undefined; this is
  modelled by `Option (List ℚ)`, and reading it while `none` produces the
  error `Err.nameXgbest` (Python NameError).
* The configuration constants of the script (xmin, xmax, pop, itermax, tol,
  omega, lambda1, lambda2, the seed wing `asa_base`) are gathered in a
  `Config`, since the claims quantify over runs/configurations; the
  hard-coded 5-element `var_names` table is generalised to the dimensionality
  of the run, matching `nrvar = len(xmin)`.
* Pure bookkeeping that only feeds matplotlib (history_particles,
  history_gbest values, ld_history) is omitted, except for the read of
  `xgbest` it performs (line 187), which can raise NameError and is kept.
* Two instrumentation fields, `initLog` and `evalLog`, record the argument
  of each `FCN` call that returned (initialisation loop and main loop
  respectively).  They are write-only: no engine decision reads them.
-/

namespace PSO

/-- Runtime failures the v12 driver can actually produce.  `fcnRaised`
models an exception escaping the unguarded `FCN(...)` calls; `nameXgbest`
models the NameError from reading `xgbest` when no initial evaluation ever
assigned it; `fuel` is an artefact of modelling the unbounded `while` loop
by fuel and is unreachable for the fuel supplied by `run`. -/
inductive Err where
  | fcnRaised
  | nameXgbest
  | fuel
deriving DecidableEq

/-- Configuration surface of one run of the v12 driver. -/
structure Config where
  nrvar : ℕ
  pop : ℕ
  xmin : List ℚ
  xmax : List ℚ
  omega : ℚ
  lambda1 : ℚ
  lambda2 : ℚ
  itermax : ℕ
  tol : ℚ
  asaBase : List ℚ
  rng : ℕ → ℚ
  FCN : List ℚ → Option ℚ

/-- Mutable program state of the script (the free-floating arrays of the
source), plus the rng counter and the two write-only evaluation logs. -/
structure St where
  x : List (List ℚ)
  v : List (List ℚ)
  lbest : List ℚ
  xlbest : List (List ℚ)
  gbest : List ℚ
  xgbest : Option (List ℚ)
  k : ℕ
  flag : Bool
  gbestHistory : List ℚ
  rngIdx : ℕ
  initLog : List (List ℚ)
  evalLog : List (List ℚ)
deriving DecidableEq

/-- A state with empty/zero fields, used only as a `getD` default. -/
def emptySt : St :=
  { x := [], v := [], lbest := [], xlbest := [], gbest := [], xgbest := none,
    k := 0, flag := false, gbestHistory := [], rngIdx := 0,
    initLog := [], evalLog := [] }

/-- Behaviour of `np.clip(val, lo, hi)`: `min(max(val, lo), hi)`. -/
def npClip (val lo hi : ℚ) : ℚ := min (max val lo) hi

/-- Behaviour of `np.mean` on a list of rationals. -/
def mean (l : List ℚ) : ℚ := l.sum / (l.length : ℚ)

/-- Read entry `(i, j)` of a matrix stored as a list of rows
(`x[i, j]` in the source). -/
def getCoord (m : List (List ℚ)) (i j : ℕ) : ℚ := (m.getD i []).getD j 0

/-- Write entry `(i, j)` of a matrix stored as a list of rows
(`x[i, j] = val` in the source). -/
def setCoord (m : List (List ℚ)) (i j : ℕ) (val : ℚ) : List (List ℚ) :=
  m.set i ((m.getD i []).set j val)

/-- One random initial position row:
`x[i, j] = xmin[j] + (xmax[j] - xmin[j]) * random.random()` for each `j`
(v12 line 99), consuming `nrvar` draws starting at `idx`. -/
def randRow (cfg : Config) (idx : ℕ) : List ℚ :=
  (List.range cfg.nrvar).map fun j =>
    cfg.xmin.getD j 0 + (cfg.xmax.getD j 0 - cfg.xmin.getD j 0) * cfg.rng (idx + j)

/-- One pass of the initialisation loop (v12 lines 91-117) for particle
`i`: seed particle 0 with `asa_base`, draw the others uniformly inside the
box, evaluate `FCN` (an exception aborts: the call is unguarded), record
the personal best, and update the global best on strict improvement. -/
def initStep (cfg : Config) (s : St) (i : ℕ) : Except Err St :=
  let row : List ℚ := if i = 0 then cfg.asaBase else randRow cfg s.rngIdx
  let idx2 : ℕ := if i = 0 then s.rngIdx else s.rngIdx + cfg.nrvar
  match cfg.FCN row with
  | none => .error .fcnRaised
  | some y =>
    .ok (if y < s.gbest.getD (s.k - 1) 0 then
          { s with x := s.x.set i row, rngIdx := idx2,
                   initLog := s.initLog ++ [row],
                   lbest := s.lbest.set i y, xlbest := s.xlbest.set i row,
                   gbest := s.gbest.set (s.k - 1) y, xgbest := some row }
         else
          { s with x := s.x.set i row, rngIdx := idx2,
                   initLog := s.initLog ++ [row],
                   lbest := s.lbest.set i y, xlbest := s.xlbest.set i row })

/-- The initialisation loop folded over the particle indices. -/
def initLoop (cfg : Config) : List ℕ → St → Except Err St
  | [], s => .ok s
  | i :: rest, s => do initLoop cfg rest (← initStep cfg s i)

/-- State at the top of section 3 of the script: zero matrices, the
`gbest = [1e30]` placeholder, `k = 1`, nothing assigned to `xgbest`. -/
def initState (cfg : Config) : St :=
  { x := List.replicate cfg.pop (List.replicate cfg.nrvar 0),
    v := List.replicate cfg.pop (List.replicate cfg.nrvar 0),
    lbest := List.replicate cfg.pop 0,
    xlbest := List.replicate cfg.pop (List.replicate cfg.nrvar 0),
    gbest := [10 ^ 30], xgbest := none, k := 1, flag := false,
    gbestHistory := [], rngIdx := 0, initLog := [], evalLog := [] }

/-- Run the whole initialisation phase. -/
def runInit (cfg : Config) : Except Err St :=
  initLoop cfg (List.range cfg.pop) (initState cfg)

/-- Inner dimension update (v12 lines 141-157) for particle `i`,
dimension `j`: draw `r1`, `r2`, compute the velocity, clip only the
position, store both.  Reading `xgbest[j]` raises NameError when `xgbest`
was never assigned. -/
def dimStep (cfg : Config) (i : ℕ) (s : St) (j : ℕ) : Except Err St :=
  match s.xgbest with
  | none => .error .nameXgbest
  | some xg =>
    let r1 : ℚ := cfg.rng s.rngIdx
    let r2 : ℚ := cfg.rng (s.rngIdx + 1)
    let vnew : ℚ := cfg.omega * getCoord s.v i j
      + cfg.lambda1 * r1 * (getCoord s.xlbest i j - getCoord s.x i j)
      + cfg.lambda2 * r2 * (xg.getD j 0 - getCoord s.x i j)
    let xnew : ℚ := npClip (getCoord s.x i j + vnew) (cfg.xmin.getD j 0) (cfg.xmax.getD j 0)
    .ok { s with v := setCoord s.v i j vnew, x := setCoord s.x i j xnew,
                 rngIdx := s.rngIdx + 2 }

/-- The `for j in range(nrvar)` loop of the main iteration. -/
def dimLoop (cfg : Config) (i : ℕ) : List ℕ → St → Except Err St
  | [], s => .ok s
  | j :: rest, s => do dimLoop cfg i rest (← dimStep cfg i s j)

/-- One particle of the main loop (v12 lines 139-178): update all
dimensions, evaluate `FCN` once at the clamped position (unguarded call),
then update the personal best and the global best on strict improvement. -/
def particleStep (cfg : Config) (s : St) (i : ℕ) : Except Err St := do
  let u ← dimLoop cfg i (List.range cfg.nrvar) s
  let row : List ℚ := u.x.getD i []
  match cfg.FCN row with
  | none => .error .fcnRaised
  | some ynew =>
    .ok { u with
      evalLog := u.evalLog ++ [row],
      lbest := if ynew < u.lbest.getD i 0 then u.lbest.set i ynew else u.lbest,
      xlbest := if ynew < u.lbest.getD i 0 then u.xlbest.set i row else u.xlbest,
      gbest := if ynew < u.gbest.getD (u.k - 1) 0 then
                 u.gbest.set (u.k - 1) ynew else u.gbest,
      xgbest := if ynew < u.gbest.getD (u.k - 1) 0 then some row else u.xgbest }

/-- The `for i in range(pop)` loop of the main iteration. -/
def particleLoop (cfg : Config) : List ℕ → St → Except Err St
  | [], s => .ok s
  | i :: rest, s => do particleLoop cfg rest (← particleStep cfg s i)

/-- One body of the `while not flag` loop (v12 lines 131-208):
`gbest.append(gbest[k-2])`, per-particle updates, history append, the
`xgbest` read of the variable-history bookkeeping (NameError if still
unassigned), the iteration cap, the plateau check over the last two
5-wide windows of `gbest_history`, and `k += 1`.  The plateau test of
v12 lines 198-202 is factored out as `plateauHit`: with at least 10
recorded iterations, compare the mean of `gbest_history[-5:]` with the
mean of `gbest_history[-10:-5]`. -/
def plateauHit (hist : List ℚ) (tol : ℚ) : Bool :=
  if 10 ≤ hist.length then
    let prevWin := (hist.drop (hist.length - 10)).take 5
    let currWin := hist.drop (hist.length - 5)
    decide (|mean currWin - mean prevWin| < tol)
  else false

def iterBody (cfg : Config) (s0 : St) : Except Err St := do
  let s1 : St := { s0 with gbest := s0.gbest ++ [s0.gbest.getD (s0.k - 2) 0] }
  let s2 ← particleLoop cfg (List.range cfg.pop) s1
  let hist : List ℚ := s2.gbestHistory ++ [s2.gbest.getD (s2.k - 1) 0]
  match s2.xgbest with
  | none => .error .nameXgbest
  | some _ =>
    let flag1 : Bool := if cfg.itermax ≤ s2.k then true else s2.flag
    let flag2 : Bool := if plateauHit hist cfg.tol then true else flag1
    .ok { s2 with gbestHistory := hist, flag := flag2, k := s2.k + 1 }

/-- The statements between the loops (v12 lines 126-129):
`flag = False; k = 2; gbest.append(gbest[0])`. -/
def preLoop (s : St) : St :=
  { s with flag := false, k := 2, gbest := s.gbest ++ [s.gbest.getD 0 0] }

/-- The `while not flag` loop, by fuel.  Exhausting the fuel with the flag
still down yields `Err.fuel`; `run` supplies `itermax + 2` fuel, which is
provably never exhausted because each body increments `k` and raises the
flag as soon as `k >= itermax`. -/
def loop (cfg : Config) : ℕ → St → Except Err St
  | 0, s => if s.flag then .ok s else .error .fuel
  | n + 1, s => if s.flag then .ok s else do loop cfg n (← iterBody cfg s)

/-- A complete run of the v12 driver: initialisation, the pre-loop
statements, then the main loop. -/
def run (cfg : Config) : Except Err St := do
  let s ← runInit cfg
  loop cfg (cfg.itermax + 2) (preLoop s)

/-- The velocity rule exactly as written in spec section 4.3:
`ω·v + λ1·r1·(personal_best − position) + λ2·r2·(global_best − position)`. -/
def specVelocity (omg l1 l2 r1 r2 v x pb gb : ℚ) : ℚ :=
  omg * v + l1 * r1 * (pb - x) + l2 * r2 * (gb - x)

/-- A position vector lies inside the Bounds box, coordinate by
coordinate, over the configured dimensions. -/
def inBnds (cfg : Config) (p : List ℚ) : Prop :=
  ∀ j, j < cfg.nrvar → cfg.xmin.getD j 0 ≤ p.getD j 0 ∧ p.getD j 0 ≤ cfg.xmax.getD j 0

/-- Shape invariant: the position matrix has one row per particle and one
column per decision variable. -/
def rowLenOk (cfg : Config) (s : St) : Prop :=
  s.x.length = cfg.pop ∧ ∀ i, i < cfg.pop → (s.x.getD i []).length = cfg.nrvar

/-- Every position the main loop has handed to the objective so far was
inside the Bounds box. -/
def logOk (cfg : Config) (s : St) : Prop := ∀ p ∈ s.evalLog, inBnds cfg p

/-- Fields of the state that one inner dimension loop for particle `i`
never changes (everything except the velocity/position entries of row `i`
and the rng counter). -/
def DimFixed (i : ℕ) (s t : St) : Prop :=
  t.evalLog = s.evalLog ∧ t.initLog = s.initLog ∧ t.gbestHistory = s.gbestHistory ∧
  t.k = s.k ∧ t.flag = s.flag ∧ t.gbest = s.gbest ∧ t.lbest = s.lbest ∧
  t.xlbest = s.xlbest ∧ t.xgbest = s.xgbest ∧ t.x.length = s.x.length ∧
  (∀ i2, i2 ≠ i → t.x.getD i2 [] = s.x.getD i2 []) ∧
  (t.x.getD i []).length = (s.x.getD i []).length

instance instDecEqExcept {e a : Type} [DecidableEq e] [DecidableEq a] :
    DecidableEq (Except e a) := fun x y =>
  match x, y with
  | .error e1, .error e2 =>
    decidable_of_iff (e1 = e2) (Iff.intro (fun h => by rw [h]) (fun h => by injection h))
  | .error _, .ok _ => isFalse (fun h => by injection h)
  | .ok _, .error _ => isFalse (fun h => by injection h)
  | .ok a1, .ok a2 =>
    decidable_of_iff (a1 = a2) (Iff.intro (fun h => by rw [h]) (fun h => by injection h))

/-! Concrete configurations used by counterexamples and witnesses.  Each
is an instance of the configuration surface of the v12 driver; the
evaluator and the random stream are explicit total functions. -/

/-- Counterexample run for C1: the evaluator fails on every call. -/
def cfgC1x : Config :=
  { nrvar := 1, pop := 1, xmin := [0], xmax := [4],
    omega := 1, lambda1 := 1, lambda2 := 1, itermax := 3, tol := 0,
    asaBase := [2], rng := fun _ => 0, FCN := fun _ => none }

/-- Witness run for C1: two particles, evaluator fails on every call. -/
def cfgC1w : Config :=
  { nrvar := 1, pop := 2, xmin := [0], xmax := [4],
    omega := 1, lambda1 := 1, lambda2 := 1, itermax := 5, tol := 0,
    asaBase := [2], rng := fun _ => 0, FCN := fun _ => none }

/-- A state whose global best is assigned, used to witness that a failing
evaluation inside the main loop is fatal as well. -/
def stSome : St := { emptySt with xgbest := some [2] }

/-- Counterexample run for C2: iteration cap 5, plateau impossible
(tolerance 0), constant evaluator. -/
def cfgC2x : Config :=
  { nrvar := 1, pop := 1, xmin := [0], xmax := [4],
    omega := 1, lambda1 := 1, lambda2 := 1, itermax := 5, tol := 0,
    asaBase := [2], rng := fun _ => 0, FCN := fun _ => some 7 }

/-- Witness run for C2: iteration cap 6, plateau impossible. -/
def cfgC2w : Config :=
  { nrvar := 1, pop := 1, xmin := [0], xmax := [4],
    omega := 1, lambda1 := 1, lambda2 := 1, itermax := 6, tol := 0,
    asaBase := [2], rng := fun _ => 0, FCN := fun _ => some 7 }

/-- The state produced by the witness run for C2. -/
def outC2 : St := ((run cfgC2w).toOption).getD emptySt

/-- Witness run for C3, with an evaluator that rewards the upper bound so
that particles overshoot the box and must be clamped. -/
def cfgC3w : Config :=
  { nrvar := 1, pop := 2, xmin := [0], xmax := [4],
    omega := 1, lambda1 := 1, lambda2 := 1, itermax := 4, tol := 0,
    asaBase := [2],
    rng := fun n => if n = 0 then 1/4 else 1,
    FCN := fun p => some (4 - p.getD 0 0) }

/-- The state produced by the witness run for C3. -/
def outC3 : St := ((run cfgC3w).toOption).getD emptySt

/-- Failing input for C4: baseline fitness 50, a round-2 candidate of
fitness 0, a round-3 candidate of fitness 50 again.  Because round `k`
compares against the global best recorded two rounds earlier, the history
comes out as `[0, 50, 0]`. -/
def cfgC4x : Config :=
  { nrvar := 1, pop := 2, xmin := [0], xmax := [4],
    omega := 1, lambda1 := 1, lambda2 := 1, itermax := 4, tol := 0,
    asaBase := [2],
    rng := fun n => if n = 0 then 1/4 else if n = 4 then 1/2 else 0,
    FCN := fun p => some (if p = [3/2] then 0 else if p = [2] then 50 else 60) }

/-- Witness run for C5: same configuration as the C2 witness but with a
moving particle. -/
def cfgC5w : Config :=
  { nrvar := 1, pop := 2, xmin := [0], xmax := [4],
    omega := 1, lambda1 := 1, lambda2 := 1, itermax := 3, tol := 0,
    asaBase := [2],
    rng := fun n => if n = 0 then 1/4 else if n = 4 then 1/2 else 0,
    FCN := fun p => some (if p = [3/2] then 0 else if p = [2] then 50 else 60) }

/-- Configuration family for C6: one particle pinned at the seed wing, a
zero random stream (so nothing ever moves), and an evaluator that returns
the constant fitness `c` on every call. -/
def cfgC6 (c tol : ℚ) (m : ℕ) : Config :=
  { nrvar := 5, pop := 1, xmin := [0, 0, 0, 0, 0], xmax := [4, 4, 4, 4, 4],
    omega := 2/5, lambda1 := 101/50, lambda2 := 101/50, itermax := m, tol := tol,
    asaBase := [2, 0, 0, 0, 0], rng := fun _ => 0, FCN := fun _ => some c }

/-- The frozen state of a C6 run after `m` completed main-loop
iterations (loop counter `k = m + 2`, flag still down). -/
def stC6 (c : ℚ) (m : ℕ) : St :=
  { x := [[2, 0, 0, 0, 0]], v := [[0, 0, 0, 0, 0]], lbest := [c],
    xlbest := [[2, 0, 0, 0, 0]], gbest := List.replicate (m + 2) c,
    xgbest := some [2, 0, 0, 0, 0], k := m + 2, flag := false,
    gbestHistory := List.replicate m c, rngIdx := 10 * m,
    initLog := [[2, 0, 0, 0, 0]], evalLog := List.replicate m [2, 0, 0, 0, 0] }

/-- The final state of a C6 run: the tenth iteration has fired the
plateau flag. -/
def stC6final (c : ℚ) : St := { stC6 c 10 with flag := true }

/-- Counterexample run for C7: the Bounds of dimension 0 have
min = 4 > 2 = max, yet the run proceeds. -/
def cfgC7x : Config :=
  { nrvar := 1, pop := 1, xmin := [4], xmax := [2],
    omega := 1, lambda1 := 1, lambda2 := 1, itermax := 3, tol := 0,
    asaBase := [3], rng := fun _ => 0, FCN := fun _ => some 7 }

/-- Degenerate configuration for C7: population size 0. -/
def cfgC7pop : Config :=
  { nrvar := 1, pop := 0, xmin := [0], xmax := [4],
    omega := 1, lambda1 := 1, lambda2 := 1, itermax := 3, tol := 0,
    asaBase := [2], rng := fun _ => 0, FCN := fun _ => some 7 }

/-- Witness run for C8: iteration cap 0. -/
def cfgC8w : Config :=
  { nrvar := 1, pop := 1, xmin := [0], xmax := [4],
    omega := 1, lambda1 := 1, lambda2 := 1, itermax := 0, tol := 0,
    asaBase := [2], rng := fun _ => 0, FCN := fun _ => some 7 }

/-- The state produced by the witness run for C8. -/
def outC8 : St := ((run cfgC8w).toOption).getD emptySt

/-- The state produced by one particle step of the C5 witness. -/
def outC5p : St := ((particleStep cfgC5w stSome 0).toOption).getD emptySt

/-- Witness run for C9: every evaluation returns exactly the placeholder
fitness `1e30`, so the strict-improvement test never fires. -/
def cfgC9w : Config :=
  { nrvar := 1, pop := 1, xmin := [0], xmax := [4],
    omega := 1, lambda1 := 1, lambda2 := 1, itermax := 3, tol := 0,
    asaBase := [2], rng := fun _ => 0, FCN := fun _ => some (10 ^ 30) }

/-- Run for C10: particle 0 improves the global best during the first
main-loop iteration (moving from 4 to 3, fitness 5 < 10), and particle 1
is then attracted towards 3, not towards the iteration-start best 1. -/
def cfgC10x : Config :=
  { nrvar := 1, pop := 2, xmin := [0], xmax := [100],
    omega := 0, lambda1 := 1, lambda2 := 1, itermax := 2, tol := 0,
    asaBase := [4],
    rng := fun n => if n = 0 then 1/100 else if n = 2 then 1/3 else if n = 4 then 1/2 else 0,
    FCN := fun p => some (if p = [4] then 20 else if p = [1] then 10 else if p = [3] then 5 else 50) }

/-! Small list facts used throughout (stated over a general element type
with an explicit default, in the `getD` style of the embedding). -/

theorem list_set_of_le {α : Type} (v : α) :
    ∀ (l : List α) (i : ℕ), l.length ≤ i → l.set i v = l := by
  intro l
  induction l with
  | nil => intro i _; rfl
  | cons a t ih =>
    intro i h
    cases i with
    | zero => exact absurd h (by simp)
    | succ n =>
      show a :: t.set n v = a :: t
      rw [ih n (by simpa using h)]

theorem list_getD_set_self {α : Type} (d : α) :
    ∀ (l : List α) (i : ℕ) (v : α), i < l.length → (l.set i v).getD i d = v := by
  intro l
  induction l with
  | nil => intro i v h; exact absurd h (by simp)
  | cons a t ih =>
    intro i v h
    cases i with
    | zero => rfl
    | succ n => exact ih n v (by simpa using h)

theorem list_getD_set_ne {α : Type} (d : α) :
    ∀ (l : List α) (i j : ℕ) (v : α), i ≠ j → (l.set i v).getD j d = l.getD j d := by
  intro l
  induction l with
  | nil => intro i j v _; rfl
  | cons a t ih =>
    intro i j v h
    cases i with
    | zero =>
      cases j with
      | zero => exact absurd rfl h
      | succ m => rfl
    | succ n =>
      cases j with
      | zero => rfl
      | succ m => exact ih n m v (fun hh => h (by rw [hh]))

theorem list_getD_replicate {α : Type} (d a : α) :
    ∀ (n i : ℕ), i < n → (List.replicate n a).getD i d = a := by
  intro n
  induction n with
  | zero => intro i h; exact absurd h (by simp)
  | succ m ih =>
    intro i h
    cases i with
    | zero => rfl
    | succ p => exact ih p (by omega)

theorem list_replicate_snoc {α : Type} (a : α) :
    ∀ n : ℕ, List.replicate n a ++ [a] = List.replicate (n + 1) a := by
  intro n
  induction n with
  | zero => rfl
  | succ m ih =>
    show a :: (List.replicate m a ++ [a]) = a :: List.replicate (m + 1) a
    rw [ih]

theorem setCoord_length (m : List (List ℚ)) (i j : ℕ) (v : ℚ) :
    (setCoord m i j v).length = m.length := by
  simp [setCoord]

theorem getD_setCoord_ne (m : List (List ℚ)) (i i2 j : ℕ) (v : ℚ) (h : i2 ≠ i) :
    (setCoord m i j v).getD i2 [] = m.getD i2 [] :=
  list_getD_set_ne [] m i i2 _ (fun hh => h hh.symm)

theorem getD_setCoord_self (m : List (List ℚ)) (i j : ℕ) (v : ℚ) (h : i < m.length) :
    (setCoord m i j v).getD i [] = (m.getD i []).set j v :=
  list_getD_set_self [] m i _ h

theorem getD_setCoord_len (m : List (List ℚ)) (i j : ℕ) (v : ℚ) :
    ((setCoord m i j v).getD i []).length = (m.getD i []).length := by
  by_cases h : i < m.length
  · rw [getD_setCoord_self m i j v h]
    simp
  · rw [setCoord, list_set_of_le _ _ _ (le_of_not_lt h)]

/-! Reduction of the two `Except` bind shapes produced by the embedding. -/

theorem ok_bind {α β : Type} (a : α) (f : α → Except Err β) :
    (Except.ok a >>= f) = f a := rfl

theorem error_bind {α β : Type} (e : Err) (f : α → Except Err β) :
    ((Except.error e : Except Err α) >>= f) = .error e := rfl

/-- Destructor for a successful `dimStep`: it requires an assigned global
best and performs exactly the unclamped-velocity / clamped-position write
of v12 lines 144-157, advancing the rng counter by two. -/
theorem dimStep_ok {cfg : Config} {i j : ℕ} {s t : St} (h : dimStep cfg i s j = .ok t) :
    ∃ xg, s.xgbest = some xg ∧
      t = { s with
        v := setCoord s.v i j (cfg.omega * getCoord s.v i j
          + cfg.lambda1 * cfg.rng s.rngIdx * (getCoord s.xlbest i j - getCoord s.x i j)
          + cfg.lambda2 * cfg.rng (s.rngIdx + 1) * (xg.getD j 0 - getCoord s.x i j)),
        x := setCoord s.x i j (npClip (getCoord s.x i j + (cfg.omega * getCoord s.v i j
          + cfg.lambda1 * cfg.rng s.rngIdx * (getCoord s.xlbest i j - getCoord s.x i j)
          + cfg.lambda2 * cfg.rng (s.rngIdx + 1) * (xg.getD j 0 - getCoord s.x i j)))
          (cfg.xmin.getD j 0) (cfg.xmax.getD j 0)),
        rngIdx := s.rngIdx + 2 } := by
  cases hx : s.xgbest with
  | none =>
    simp only [dimStep, hx] at h
    injection h
  | some xg =>
    simp only [dimStep, hx] at h
    injection h with h2
    exact ⟨xg, rfl, h2.symm⟩

theorem dimFixed_refl (i : ℕ) (s : St) : DimFixed i s s :=
  ⟨rfl, rfl, rfl, rfl, rfl, rfl, rfl, rfl, rfl, rfl, fun _ _ => rfl, rfl⟩

theorem dimFixed_trans {i : ℕ} {s u t : St} (h1 : DimFixed i s u) (h2 : DimFixed i u t) :
    DimFixed i s t := by
  obtain ⟨a1, a2, a3, a4, a5, a6, a7, a8, a9, a10, a11, a12⟩ := h1
  obtain ⟨b1, b2, b3, b4, b5, b6, b7, b8, b9, b10, b11, b12⟩ := h2
  exact ⟨b1.trans a1, b2.trans a2, b3.trans a3, b4.trans a4, b5.trans a5, b6.trans a6,
    b7.trans a7, b8.trans a8, b9.trans a9, b10.trans a10,
    fun i2 h => (b11 i2 h).trans (a11 i2 h), b12.trans a12⟩

theorem dimStep_fixed {cfg : Config} {i j : ℕ} {s t : St} (h : dimStep cfg i s j = .ok t) :
    DimFixed i s t ∧ t.rngIdx = s.rngIdx + 2 := by
  obtain ⟨xg, hx, rfl⟩ := dimStep_ok h
  refine ⟨⟨rfl, rfl, rfl, rfl, rfl, rfl, rfl, rfl, rfl, setCoord_length _ _ _ _,
    fun i2 h2 => getD_setCoord_ne _ _ _ _ _ h2, getD_setCoord_len _ _ _ _⟩, rfl⟩

theorem dimLoop_fixed {cfg : Config} {i : ℕ} :
    ∀ (l : List ℕ) (s t : St), dimLoop cfg i l s = .ok t →
      DimFixed i s t ∧ t.rngIdx = s.rngIdx + 2 * l.length := by
  intro l
  induction l with
  | nil =>
    intro s t h
    injection h with h2
    subst h2
    exact ⟨dimFixed_refl i s, by simp⟩
  | cons j rest ih =>
    intro s t h
    simp only [dimLoop] at h
    cases hd : dimStep cfg i s j with
    | error e => rw [hd, error_bind] at h; injection h
    | ok u =>
      rw [hd, ok_bind] at h
      obtain ⟨f1, r1⟩ := dimStep_fixed hd
      obtain ⟨f2, r2⟩ := ih u t h
      refine ⟨dimFixed_trans f1 f2, ?_⟩
      rw [r2, r1]
      simp
      ring

/-- Destructor for a successful `particleStep`: it is a successful inner
dimension loop followed by one successful objective call and the two
strict-improvement updates of v12 lines 167-178. -/
theorem particleStep_shape {cfg : Config} {s t : St} {i : ℕ} (h : particleStep cfg s i = .ok t) :
    ∃ u y, dimLoop cfg i (List.range cfg.nrvar) s = .ok u ∧
      cfg.FCN (u.x.getD i []) = some y ∧
      t = { u with
        evalLog := u.evalLog ++ [u.x.getD i []],
        lbest := if y < u.lbest.getD i 0 then u.lbest.set i y else u.lbest,
        xlbest := if y < u.lbest.getD i 0 then u.xlbest.set i (u.x.getD i []) else u.xlbest,
        gbest := if y < u.gbest.getD (u.k - 1) 0 then u.gbest.set (u.k - 1) y else u.gbest,
        xgbest := if y < u.gbest.getD (u.k - 1) 0 then some (u.x.getD i []) else u.xgbest } := by
  simp only [particleStep] at h
  cases hd : dimLoop cfg i (List.range cfg.nrvar) s with
  | error e => rw [hd, error_bind] at h; injection h
  | ok u =>
    rw [hd, ok_bind] at h
    split at h
    · injection h
    · rename_i y heq
      injection h with h2
      exact ⟨u, y, rfl, heq, h2.symm⟩

/-- Fields of the state that the per-particle loop never changes. -/
def IterFixed (s t : St) : Prop :=
  t.k = s.k ∧ t.flag = s.flag ∧ t.gbestHistory = s.gbestHistory ∧
  t.initLog = s.initLog ∧ t.gbest.length = s.gbest.length ∧ t.x.length = s.x.length

theorem iterFixed_refl (s : St) : IterFixed s s := ⟨rfl, rfl, rfl, rfl, rfl, rfl⟩

theorem iterFixed_trans {s u t : St} (h1 : IterFixed s u) (h2 : IterFixed u t) :
    IterFixed s t :=
  ⟨h2.1.trans h1.1, h2.2.1.trans h1.2.1, h2.2.2.1.trans h1.2.2.1,
    h2.2.2.2.1.trans h1.2.2.2.1, h2.2.2.2.2.1.trans h1.2.2.2.2.1,
    h2.2.2.2.2.2.trans h1.2.2.2.2.2⟩

theorem particleStep_iterFixed {cfg : Config} {s t : St} {i : ℕ}
    (h : particleStep cfg s i = .ok t) : IterFixed s t := by
  obtain ⟨u, y, hd, hf, rfl⟩ := particleStep_shape h
  obtain ⟨⟨e1, e2, e3, e4, e5, e6, e7, e8, e9, e10, e11, e12⟩, _⟩ := dimLoop_fixed _ _ _ hd
  refine ⟨e4, e5, e3, e2, ?_, e10⟩
  show (if y < u.gbest.getD (u.k - 1) 0 then u.gbest.set (u.k - 1) y else u.gbest).length
      = s.gbest.length
  by_cases hg : y < u.gbest.getD (u.k - 1) 0
  · rw [if_pos hg, List.length_set, e6]
  · rw [if_neg hg, e6]

theorem particleLoop_iterFixed {cfg : Config} :
    ∀ (l : List ℕ) (s t : St), particleLoop cfg l s = .ok t → IterFixed s t := by
  intro l
  induction l with
  | nil =>
    intro s t h
    injection h with h2
    subst h2
    exact iterFixed_refl s
  | cons i rest ih =>
    intro s t h
    simp only [particleLoop] at h
    cases hp : particleStep cfg s i with
    | error e => rw [hp, error_bind] at h; injection h
    | ok u =>
      rw [hp, ok_bind] at h
      exact iterFixed_trans (particleStep_iterFixed hp) (ih u t h)

/-- Destructor for a successful `iterBody`: a successful particle loop on
the extended `gbest` list, an assigned `xgbest`, then the history append,
the two stopping checks and the counter increment. -/
theorem iterBody_ok {cfg : Config} {s t : St} (h : iterBody cfg s = .ok t) :
    ∃ s2 g, particleLoop cfg (List.range cfg.pop)
        { s with gbest := s.gbest ++ [s.gbest.getD (s.k - 2) 0] } = .ok s2 ∧
      s2.xgbest = some g ∧
      t = { s2 with
        gbestHistory := s2.gbestHistory ++ [s2.gbest.getD (s2.k - 1) 0],
        flag := if plateauHit (s2.gbestHistory ++ [s2.gbest.getD (s2.k - 1) 0]) cfg.tol
                then true else if cfg.itermax ≤ s2.k then true else s2.flag,
        k := s2.k + 1 } := by
  simp only [iterBody] at h
  cases hp : particleLoop cfg (List.range cfg.pop)
      { s with gbest := s.gbest ++ [s.gbest.getD (s.k - 2) 0] } with
  | error e => rw [hp, error_bind] at h; injection h
  | ok s2 =>
    rw [hp, ok_bind] at h
    split at h
    · injection h
    · rename_i g heq
      injection h with h2
      exact ⟨s2, g, rfl, heq, h2.symm⟩

/-- A nonpositive tolerance can never be beaten by an absolute value, so
the plateau test never fires. -/
theorem plateauHit_nonpos (hist : List ℚ) (tol : ℚ) (h : tol ≤ 0) :
    plateauHit hist tol = false := by
  unfold plateauHit
  by_cases hl : 10 ≤ hist.length
  · rw [if_pos hl]
    simp only [decide_eq_false_iff_not]
    exact not_lt.mpr (le_trans h (abs_nonneg _))
  · rw [if_neg hl]

/-- Observable effect of one successful loop body on the loop counter,
the history length and the stopping flag. -/
theorem iterBody_k_hist {cfg : Config} {s t : St} (h : iterBody cfg s = .ok t) :
    t.k = s.k + 1 ∧ t.gbestHistory.length = s.gbestHistory.length + 1 ∧
    (cfg.itermax ≤ s.k → t.flag = true) ∧
    (cfg.tol ≤ 0 → ¬ cfg.itermax ≤ s.k → t.flag = s.flag) := by
  obtain ⟨s2, g, hp, hxg, rfl⟩ := iterBody_ok h
  obtain ⟨e1, e2, e3, e4, e5, e6⟩ := particleLoop_iterFixed _ _ _ hp
  refine ⟨by simp [e1], by simp [e3], ?_, ?_⟩
  · intro hcap
    have hc2 : cfg.itermax ≤ s2.k := by rw [e1]; exact hcap
    show (if plateauHit _ cfg.tol then true else if cfg.itermax ≤ s2.k then true else s2.flag)
        = true
    rw [if_pos hc2]
    by_cases hpl : plateauHit (s2.gbestHistory ++ [s2.gbest.getD (s2.k - 1) 0]) cfg.tol = true
    · rw [if_pos hpl]
    · rw [if_neg hpl]
  · intro htol hcap
    have hc2 : ¬ cfg.itermax ≤ s2.k := by rw [e1]; exact hcap
    show (if plateauHit _ cfg.tol then true else if cfg.itermax ≤ s2.k then true else s2.flag)
        = s.flag
    rw [plateauHit_nonpos _ _ htol]
    simp only [Bool.false_eq_true, if_false, if_neg hc2]
    exact e2

theorem loop_succ {cfg : Config} {n : ℕ} {s : St} :
    loop cfg (n + 1) s = if s.flag = true then .ok s else (iterBody cfg s >>= loop cfg n) :=
  rfl

theorem loop_flagged {cfg : Config} {s : St} (h : s.flag = true) :
    ∀ n, loop cfg n s = .ok s := by
  intro n
  cases n with
  | zero => simp [loop, h]
  | succ m => simp [loop, h]

theorem loop_hist_mono {cfg : Config} :
    ∀ (n : ℕ) (s t : St), loop cfg n s = .ok t →
      s.gbestHistory.length ≤ t.gbestHistory.length := by
  intro n
  induction n with
  | zero =>
    intro s t h
    simp only [loop] at h
    by_cases hf : s.flag = true
    · rw [if_pos hf] at h
      injection h with h2
      subst h2
      exact le_refl _
    · rw [if_neg hf] at h
      injection h
  | succ m ih =>
    intro s t h
    simp only [loop] at h
    by_cases hf : s.flag = true
    · rw [if_pos hf] at h
      injection h with h2
      subst h2
      exact le_refl _
    · rw [if_neg hf] at h
      cases hb : iterBody cfg s with
      | error e => rw [hb, error_bind] at h; injection h
      | ok s2 =>
        rw [hb, ok_bind] at h
        have h2 := (iterBody_k_hist hb).2.1
        have h3 := ih s2 t h
        omega

/-- With a nonpositive tolerance, a run entering the loop with counter
`k ≤ itermax` and the flag down appends exactly `itermax + 1 - k` history
entries before stopping: the final body runs when the counter reaches the
cap. -/
theorem loop_count {cfg : Config} (htol : cfg.tol ≤ 0) :
    ∀ (n : ℕ) (s t : St), loop cfg n s = .ok t → s.flag = false →
      s.k ≤ cfg.itermax →
      t.gbestHistory.length = s.gbestHistory.length + (cfg.itermax + 1 - s.k) := by
  intro n
  induction n with
  | zero =>
    intro s t h hf _
    simp only [loop] at h
    rw [if_neg (by simp [hf])] at h
    injection h
  | succ m ih =>
    intro s t h hf hk
    simp only [loop] at h
    rw [if_neg (by simp [hf])] at h
    cases hb : iterBody cfg s with
    | error e => rw [hb, error_bind] at h; injection h
    | ok s2 =>
      rw [hb, ok_bind] at h
      obtain ⟨hk2, hh2, hcap, hncap⟩ := iterBody_k_hist hb
      by_cases hc : cfg.itermax ≤ s.k
      · have hflag : s2.flag = true := hcap hc
        rw [loop_flagged hflag m] at h
        injection h with h2
        subst h2
        omega
      · have hs2 : s2.flag = false := by rw [hncap htol hc]; exact hf
        have := ih s2 t h hs2 (by omega)
        omega

theorem initStep_facts {cfg : Config} {s t : St} {i : ℕ} (h : initStep cfg s i = .ok t) :
    t.k = s.k ∧ t.flag = s.flag ∧ t.gbestHistory = s.gbestHistory ∧ t.evalLog = s.evalLog := by
  simp only [initStep] at h
  split at h
  · injection h
  · rename_i y heq
    injection h with h2
    subst h2
    by_cases hg : y < s.gbest.getD (s.k - 1) 0
    · rw [if_pos hg]
      exact ⟨rfl, rfl, rfl, rfl⟩
    · rw [if_neg hg]
      exact ⟨rfl, rfl, rfl, rfl⟩

theorem initLoop_facts {cfg : Config} :
    ∀ (l : List ℕ) (s t : St), initLoop cfg l s = .ok t →
      t.k = s.k ∧ t.flag = s.flag ∧ t.gbestHistory = s.gbestHistory ∧ t.evalLog = s.evalLog := by
  intro l
  induction l with
  | nil =>
    intro s t h
    injection h with h2
    subst h2
    exact ⟨rfl, rfl, rfl, rfl⟩
  | cons i rest ih =>
    intro s t h
    simp only [initLoop] at h
    cases hs : initStep cfg s i with
    | error e => rw [hs, error_bind] at h; injection h
    | ok u =>
      rw [hs, ok_bind] at h
      obtain ⟨a1, a2, a3, a4⟩ := initStep_facts hs
      obtain ⟨b1, b2, b3, b4⟩ := ih u t h
      exact ⟨b1.trans a1, b2.trans a2, b3.trans a3, b4.trans a4⟩

/-- If no evaluation ever returns a fitness strictly below the `1e30`
placeholder, an initialisation step leaves `gbest` and `xgbest` untouched. -/
theorem initStep_noBest {cfg : Config} (h1 : ∀ p y, cfg.FCN p = some y → ¬ y < 10 ^ 30)
    {s t : St} {i : ℕ} (h : initStep cfg s i = .ok t) (hx : s.xgbest = none)
    (hg : s.gbest = [10 ^ 30]) (hk : s.k = 1) :
    t.xgbest = none ∧ t.gbest = [10 ^ 30] ∧ t.k = 1 := by
  simp only [initStep] at h
  split at h
  · injection h
  · rename_i y heq
    injection h with h2
    subst h2
    have hny : ¬ y < s.gbest.getD (s.k - 1) 0 := by
      rw [hg, hk]
      simpa using h1 _ _ heq
    rw [if_neg hny]
    exact ⟨hx, hg, hk⟩

theorem initLoop_noBest {cfg : Config} (h1 : ∀ p y, cfg.FCN p = some y → ¬ y < 10 ^ 30) :
    ∀ (l : List ℕ) (s t : St), initLoop cfg l s = .ok t → s.xgbest = none →
      s.gbest = [10 ^ 30] → s.k = 1 →
      t.xgbest = none ∧ t.gbest = [10 ^ 30] ∧ t.k = 1 := by
  intro l
  induction l with
  | nil =>
    intro s t h hx hg hk
    injection h with h2
    subst h2
    exact ⟨hx, hg, hk⟩
  | cons i rest ih =>
    intro s t h hx hg hk
    simp only [initLoop] at h
    cases hs : initStep cfg s i with
    | error e => rw [hs, error_bind] at h; injection h
    | ok u =>
      rw [hs, ok_bind] at h
      obtain ⟨a1, a2, a3⟩ := initStep_noBest h1 hs hx hg hk
      exact ih u t h a1 a2 a3

theorem initStep_total {cfg : Config} (h2 : ∀ p, ∃ y, cfg.FCN p = some y) (s : St) (i : ℕ) :
    ∃ t, initStep cfg s i = .ok t := by
  obtain ⟨y, hy⟩ := h2 (if i = 0 then cfg.asaBase else randRow cfg s.rngIdx)
  simp only [initStep]
  rw [hy]
  exact ⟨_, rfl⟩

theorem initLoop_total {cfg : Config} (h2 : ∀ p, ∃ y, cfg.FCN p = some y) :
    ∀ (l : List ℕ) (s : St), ∃ t, initLoop cfg l s = .ok t := by
  intro l
  induction l with
  | nil => intro s; exact ⟨s, rfl⟩
  | cons i rest ih =>
    intro s
    obtain ⟨u, hu⟩ := initStep_total h2 s i
    obtain ⟨t, ht⟩ := ih u
    refine ⟨t, ?_⟩
    simp only [initLoop]
    rw [hu, ok_bind]
    exact ht

theorem dimStep_noXgbest {cfg : Config} {i j : ℕ} {s : St} (hx : s.xgbest = none) :
    dimStep cfg i s j = .error .nameXgbest := by
  simp only [dimStep, hx]

/-- If the initialisation never assigned `xgbest`, the first dimension
update of the first particle of the first loop body reads the undefined
name and the body aborts with the NameError. -/
theorem iterBody_noXgbest {cfg : Config} {s : St} (hx : s.xgbest = none)
    (hpop : 1 ≤ cfg.pop) (hnr : 1 ≤ cfg.nrvar) :
    iterBody cfg s = .error .nameXgbest := by
  obtain ⟨p, hp⟩ : ∃ p, cfg.pop = p + 1 := ⟨cfg.pop - 1, by omega⟩
  obtain ⟨q, hq⟩ : ∃ q, cfg.nrvar = q + 1 := ⟨cfg.nrvar - 1, by omega⟩
  have hdim : dimLoop cfg 0 (List.range cfg.nrvar)
      { s with gbest := s.gbest ++ [s.gbest.getD (s.k - 2) 0] } = .error .nameXgbest := by
    rw [hq, List.range_succ_eq_map]
    simp only [dimLoop]
    rw [dimStep_noXgbest (show ({ s with gbest := s.gbest ++ [s.gbest.getD (s.k - 2) 0] } :
      St).xgbest = none from hx), error_bind]
  have hps : particleStep cfg
      { s with gbest := s.gbest ++ [s.gbest.getD (s.k - 2) 0] } 0 = .error .nameXgbest := by
    simp only [particleStep]
    rw [hdim, error_bind]
  have hpl : particleLoop cfg (List.range cfg.pop)
      { s with gbest := s.gbest ++ [s.gbest.getD (s.k - 2) 0] } = .error .nameXgbest := by
    rw [hp, List.range_succ_eq_map]
    simp only [particleLoop]
    rw [hps, error_bind]
  simp only [iterBody]
  rw [hpl, error_bind]

theorem initStep_zero_fail {cfg : Config} (hf : cfg.FCN cfg.asaBase = none) (s : St) :
    initStep cfg s 0 = .error .fcnRaised := by
  simp only [initStep]
  norm_num
  rw [hf]

/-- An objective exception on the seeded first candidate aborts the whole
run during initialisation. -/
theorem run_fail_seed {cfg : Config} (hf : cfg.FCN cfg.asaBase = none) (hpop : 1 ≤ cfg.pop) :
    run cfg = .error .fcnRaised := by
  obtain ⟨p, hp⟩ : ∃ p, cfg.pop = p + 1 := ⟨cfg.pop - 1, by omega⟩
  have hinit : runInit cfg = .error .fcnRaised := by
    unfold runInit
    rw [hp, List.range_succ_eq_map]
    simp only [initLoop]
    rw [initStep_zero_fail hf, error_bind]
  unfold run
  rw [hinit, error_bind]

theorem dimStep_someTotal {cfg : Config} {i j : ℕ} {s : St} {g : List ℚ}
    (h : s.xgbest = some g) : ∃ u, dimStep cfg i s j = .ok u ∧ u.xgbest = some g := by
  simp only [dimStep, h]
  exact ⟨_, rfl, rfl⟩

theorem dimLoop_someTotal {cfg : Config} {i : ℕ} {g : List ℚ} :
    ∀ (l : List ℕ) (s : St), s.xgbest = some g →
      ∃ t, dimLoop cfg i l s = .ok t ∧ t.xgbest = some g := by
  intro l
  induction l with
  | nil => intro s h; exact ⟨s, rfl, h⟩
  | cons j rest ih =>
    intro s h
    obtain ⟨u, hu, hxu⟩ := dimStep_someTotal (j := j) h
    obtain ⟨t, ht, hx⟩ := ih u hxu
    refine ⟨t, ?_, hx⟩
    simp only [dimLoop]
    rw [hu, ok_bind]
    exact ht

/-- With an always-failing evaluator, a particle of the main loop
finishes its dimension updates and then dies inside the unguarded
objective call. -/
theorem particleStep_allFail {cfg : Config} (hall : ∀ p, cfg.FCN p = none)
    {s : St} {i : ℕ} {g : List ℚ} (h : s.xgbest = some g) :
    particleStep cfg s i = .error .fcnRaised := by
  obtain ⟨u, hu, _⟩ := dimLoop_someTotal _ _ h
  simp only [particleStep]
  rw [hu, ok_bind, hall]

theorem iterBody_allFail {cfg : Config} (hall : ∀ p, cfg.FCN p = none)
    {s : St} {g : List ℚ} (h : s.xgbest = some g) (hpop : 1 ≤ cfg.pop) :
    iterBody cfg s = .error .fcnRaised := by
  obtain ⟨p, hp⟩ : ∃ p, cfg.pop = p + 1 := ⟨cfg.pop - 1, by omega⟩
  have hps : particleStep cfg
      { s with gbest := s.gbest ++ [s.gbest.getD (s.k - 2) 0] } 0 = .error .fcnRaised :=
    particleStep_allFail hall
      (show ({ s with gbest := s.gbest ++ [s.gbest.getD (s.k - 2) 0] } : St).xgbest = some g
        from h)
  have hpl : particleLoop cfg (List.range cfg.pop)
      { s with gbest := s.gbest ++ [s.gbest.getD (s.k - 2) 0] } = .error .fcnRaised := by
    rw [hp, List.range_succ_eq_map]
    simp only [particleLoop]
    rw [hps, error_bind]
  simp only [iterBody]
  rw [hpl, error_bind]

theorem npClip_mem {lo hi : ℚ} (val : ℚ) (h : lo ≤ hi) :
    lo ≤ npClip val lo hi ∧ npClip val lo hi ≤ hi := by
  unfold npClip
  exact ⟨le_min (le_max_right _ _) h, min_le_right _ _⟩

theorem dimLoop_append {cfg : Config} {i : ℕ} :
    ∀ (l1 l2 : List ℕ) (s : St),
      dimLoop cfg i (l1 ++ l2) s = (dimLoop cfg i l1 s) >>= dimLoop cfg i l2 := by
  intro l1
  induction l1 with
  | nil => intro l2 s; rfl
  | cons j rest ih =>
    intro l2 s
    simp only [List.cons_append, dimLoop]
    cases hd : dimStep cfg i s j with
    | error e => simp only [hd, error_bind]
    | ok u =>
      simp only [hd, ok_bind]
      exact ih l2 u

theorem dimLoop_singleton {cfg : Config} {i j : ℕ} {s : St} :
    dimLoop cfg i [j] s = dimStep cfg i s j := by
  simp only [dimLoop]
  cases hd : dimStep cfg i s j with
  | error e => simp only [hd, error_bind]
  | ok u => simp only [hd, ok_bind]

theorem dimStep_coord {cfg : Config} {i j : ℕ} {s t : St} (h : dimStep cfg i s j = .ok t)
    (hix : i < s.x.length) (hjr : j < (s.x.getD i []).length)
    (hb : cfg.xmin.getD j 0 ≤ cfg.xmax.getD j 0) :
    cfg.xmin.getD j 0 ≤ (t.x.getD i []).getD j 0 ∧
      (t.x.getD i []).getD j 0 ≤ cfg.xmax.getD j 0 := by
  obtain ⟨xg, hx, rfl⟩ := dimStep_ok h
  show cfg.xmin.getD j 0 ≤ ((setCoord s.x i j _).getD i []).getD j 0 ∧ _
  rw [getD_setCoord_self _ _ _ _ hix, list_getD_set_self _ _ _ _ hjr]
  exact npClip_mem _ hb

theorem dimStep_coord_ne {cfg : Config} {i j j2 : ℕ} {s t : St}
    (h : dimStep cfg i s j = .ok t) (hne : j2 ≠ j) :
    (t.x.getD i []).getD j2 0 = (s.x.getD i []).getD j2 0 := by
  obtain ⟨xg, hx, rfl⟩ := dimStep_ok h
  show ((setCoord s.x i j _).getD i []).getD j2 0 = _
  by_cases hi : i < s.x.length
  · rw [getD_setCoord_self _ _ _ _ hi, list_getD_set_ne _ _ _ _ _ (fun hh => hne hh.symm)]
  · rw [setCoord, list_set_of_le _ _ _ (le_of_not_lt hi)]

/-- After the inner dimension loop has processed dimensions `0..m-1`,
all of those coordinates of row `i` are saturated into the Bounds box. -/
theorem dimLoop_range_bounds {cfg : Config} {i : ℕ}
    (hb : ∀ j, j < cfg.nrvar → cfg.xmin.getD j 0 ≤ cfg.xmax.getD j 0) :
    ∀ (m : ℕ), m ≤ cfg.nrvar → ∀ (s t : St), (s.x.getD i []).length = cfg.nrvar →
      i < s.x.length → dimLoop cfg i (List.range m) s = .ok t →
      ∀ j, j < m → cfg.xmin.getD j 0 ≤ (t.x.getD i []).getD j 0 ∧
        (t.x.getD i []).getD j 0 ≤ cfg.xmax.getD j 0 := by
  intro m
  induction m with
  | zero =>
    intro _ s t _ _ _ j hj
    exact absurd hj (by omega)
  | succ n ih =>
    intro hm s t hrow hix h j hj
    rw [List.range_succ, dimLoop_append] at h
    cases hd1 : dimLoop cfg i (List.range n) s with
    | error e => rw [hd1, error_bind] at h; injection h
    | ok u =>
      rw [hd1, ok_bind, dimLoop_singleton] at h
      obtain ⟨fx, _⟩ := dimLoop_fixed _ _ _ hd1
      obtain ⟨e1, e2, e3, e4, e5, e6, e7, e8, e9, e10, e11, e12⟩ := fx
      by_cases hjn : j = n
      · subst hjn
        exact dimStep_coord h (by rw [e10]; exact hix) (by rw [e12, hrow]; omega) (hb j (by omega))
      · rw [dimStep_coord_ne h hjn]
        exact ih (by omega) s u hrow hix hd1 j (by omega)

theorem setRow_rowLen {cfg : Config} {s : St} (hrl : rowLenOk cfg s) {row : List ℚ}
    (hrow : row.length = cfg.nrvar) (i : ℕ) :
    ∀ i2, i2 < cfg.pop → ((s.x.set i row).getD i2 []).length = cfg.nrvar := by
  intro i2 hi2
  by_cases hii : i2 = i
  · subst hii
    by_cases hil : i2 < s.x.length
    · rw [list_getD_set_self _ _ _ _ hil]
      exact hrow
    · rw [list_set_of_le _ _ _ (le_of_not_lt hil)]
      exact hrl.2 i2 hi2
  · rw [list_getD_set_ne _ _ _ _ _ (fun hh => hii hh.symm)]
    exact hrl.2 i2 hi2

theorem randRow_length (cfg : Config) (idx : ℕ) : (randRow cfg idx).length = cfg.nrvar := by
  simp [randRow]

theorem initStep_inv {cfg : Config} (hlen : cfg.asaBase.length = cfg.nrvar)
    {s t : St} {i : ℕ} (h : initStep cfg s i = .ok t)
    (hrl : rowLenOk cfg s) (hlog : logOk cfg s) : rowLenOk cfg t ∧ logOk cfg t := by
  simp only [initStep] at h
  split at h
  · injection h
  · rename_i y heq
    injection h with h2
    subst h2
    have hrow : (if i = 0 then cfg.asaBase else randRow cfg s.rngIdx).length = cfg.nrvar := by
      by_cases hi : i = 0
      · rw [if_pos hi]; exact hlen
      · rw [if_neg hi]; exact randRow_length cfg s.rngIdx
    by_cases hg : y < s.gbest.getD (s.k - 1) 0
    · rw [if_pos hg]
      exact ⟨⟨by simp [hrl.1], setRow_rowLen hrl hrow i⟩, hlog⟩
    · rw [if_neg hg]
      exact ⟨⟨by simp [hrl.1], setRow_rowLen hrl hrow i⟩, hlog⟩

theorem initLoop_inv {cfg : Config} (hlen : cfg.asaBase.length = cfg.nrvar) :
    ∀ (l : List ℕ) (s t : St), initLoop cfg l s = .ok t →
      rowLenOk cfg s → logOk cfg s → rowLenOk cfg t ∧ logOk cfg t := by
  intro l
  induction l with
  | nil =>
    intro s t h h1 h2
    injection h with h3
    subst h3
    exact ⟨h1, h2⟩
  | cons i rest ih =>
    intro s t h h1 h2
    simp only [initLoop] at h
    cases hs : initStep cfg s i with
    | error e => rw [hs, error_bind] at h; injection h
    | ok u =>
      rw [hs, ok_bind] at h
      obtain ⟨h3, h4⟩ := initStep_inv hlen hs h1 h2
      exact ih u t h h3 h4

theorem particleStep_inv {cfg : Config}
    (hb : ∀ j, j < cfg.nrvar → cfg.xmin.getD j 0 ≤ cfg.xmax.getD j 0)
    {s t : St} {i : ℕ} (hi : i < cfg.pop)
    (h : particleStep cfg s i = .ok t)
    (hrl : rowLenOk cfg s) (hlog : logOk cfg s) : rowLenOk cfg t ∧ logOk cfg t := by
  obtain ⟨u, y, hd, hf, rfl⟩ := particleStep_shape h
  obtain ⟨fx, _⟩ := dimLoop_fixed _ _ _ hd
  obtain ⟨e1, e2, e3, e4, e5, e6, e7, e8, e9, e10, e11, e12⟩ := fx
  have hrlu : rowLenOk cfg u := by
    refine ⟨by rw [e10]; exact hrl.1, ?_⟩
    intro i2 hi2
    by_cases hii : i2 = i
    · subst hii
      rw [e12]
      exact hrl.2 i2 hi2
    · rw [e11 i2 hii]
      exact hrl.2 i2 hi2
  have hinB : inBnds cfg (u.x.getD i []) := by
    intro j hj
    exact dimLoop_range_bounds hb cfg.nrvar (le_refl _) s u (hrl.2 i hi)
      (by rw [hrl.1]; exact hi) hd j hj
  refine ⟨hrlu, ?_⟩
  intro p hp
  have hp2 : p ∈ u.evalLog ++ [u.x.getD i []] := hp
  rcases List.mem_append.mp hp2 with hp3 | hp3
  · rw [e1] at hp3
    exact hlog p hp3
  · rw [List.mem_singleton.mp hp3]
    exact hinB

theorem particleLoop_inv {cfg : Config}
    (hb : ∀ j, j < cfg.nrvar → cfg.xmin.getD j 0 ≤ cfg.xmax.getD j 0) :
    ∀ (l : List ℕ) (s t : St), (∀ i ∈ l, i < cfg.pop) →
      particleLoop cfg l s = .ok t →
      rowLenOk cfg s → logOk cfg s → rowLenOk cfg t ∧ logOk cfg t := by
  intro l
  induction l with
  | nil =>
    intro s t _ h h1 h2
    injection h with h3
    subst h3
    exact ⟨h1, h2⟩
  | cons i rest ih =>
    intro s t hmem h h1 h2
    simp only [particleLoop] at h
    cases hs : particleStep cfg s i with
    | error e => rw [hs, error_bind] at h; injection h
    | ok u =>
      rw [hs, ok_bind] at h
      obtain ⟨h3, h4⟩ := particleStep_inv hb (hmem i (by simp)) hs h1 h2
      exact ih u t (fun i2 hi2 => hmem i2 (by simp [hi2])) h h3 h4

theorem iterBody_inv {cfg : Config}
    (hb : ∀ j, j < cfg.nrvar → cfg.xmin.getD j 0 ≤ cfg.xmax.getD j 0)
    {s t : St} (h : iterBody cfg s = .ok t)
    (hrl : rowLenOk cfg s) (hlog : logOk cfg s) : rowLenOk cfg t ∧ logOk cfg t := by
  obtain ⟨s2, g, hp, hxg, rfl⟩ := iterBody_ok h
  have := particleLoop_inv hb (List.range cfg.pop)
    { s with gbest := s.gbest ++ [s.gbest.getD (s.k - 2) 0] } s2
    (fun i hi => List.mem_range.mp hi) hp hrl hlog
  exact this

theorem loop_inv {cfg : Config}
    (hb : ∀ j, j < cfg.nrvar → cfg.xmin.getD j 0 ≤ cfg.xmax.getD j 0) :
    ∀ (n : ℕ) (s t : St), loop cfg n s = .ok t →
      rowLenOk cfg s → logOk cfg s → rowLenOk cfg t ∧ logOk cfg t := by
  intro n
  induction n with
  | zero =>
    intro s t h h1 h2
    simp only [loop] at h
    by_cases hf : s.flag = true
    · rw [if_pos hf] at h
      injection h with h3
      subst h3
      exact ⟨h1, h2⟩
    · rw [if_neg hf] at h
      injection h
  | succ m ih =>
    intro s t h h1 h2
    simp only [loop] at h
    by_cases hf : s.flag = true
    · rw [if_pos hf] at h
      injection h with h3
      subst h3
      exact ⟨h1, h2⟩
    · rw [if_neg hf] at h
      cases hbody : iterBody cfg s with
      | error e => rw [hbody, error_bind] at h; injection h
      | ok s2 =>
        rw [hbody, ok_bind] at h
        obtain ⟨h3, h4⟩ := iterBody_inv hb hbody h1 h2
        exact ih s2 t h h3 h4

theorem initState_inv (cfg : Config) : rowLenOk cfg (initState cfg) ∧ logOk cfg (initState cfg) := by
  refine ⟨⟨by simp [initState], ?_⟩, ?_⟩
  · intro i hi
    show ((List.replicate cfg.pop (List.replicate cfg.nrvar 0)).getD i []).length = cfg.nrvar
    rw [list_getD_replicate _ _ _ _ hi]
    simp
  · intro p hp
    exact absurd hp (by simp [initState])

/-- The destructuring of a successful `run` into its phases. -/
theorem run_ok {cfg : Config} {st : St} (h : run cfg = .ok st) :
    ∃ s0, runInit cfg = .ok s0 ∧ loop cfg (cfg.itermax + 2) (preLoop s0) = .ok st := by
  unfold run at h
  cases hi : runInit cfg with
  | error e => rw [hi, error_bind] at h; injection h
  | ok s0 =>
    rw [hi, ok_bind] at h
    exact ⟨s0, rfl, h⟩

/-! Claim theorems. -/

/-- Claim C1 (corrected).  The claim says an evaluation failure is mapped
to the worst-fitness sentinel and the run continues.  In the v12 driver
the `FCN` calls are unguarded, so a failure is fatal: (1) for every
configuration whose evaluator fails on the seeded first candidate, the
whole run aborts with the propagated exception during initialisation;
(2) with an always-failing evaluator, any main-loop body likewise aborts
inside the unguarded objective call.  No sentinel is ever substituted. -/
theorem C1_eval_failure_fatal :
    (∀ cfg : Config, cfg.FCN cfg.asaBase = none → 1 ≤ cfg.pop →
      run cfg = .error .fcnRaised) ∧
    (∀ (cfg : Config) (s : St) (g : List ℚ), (∀ p, cfg.FCN p = none) →
      s.xgbest = some g → 1 ≤ cfg.pop → iterBody cfg s = .error .fcnRaised) :=
  ⟨fun _ hf hp => run_fail_seed hf hp,
   fun _ _ _ hall hx hp => iterBody_allFail hall hx hp⟩

/-- Witness for C1: a concrete two-particle run with an always-failing
evaluator aborts, and a concrete main-loop body aborts as well. -/
theorem C1_eval_failure_fatal_witness :
    cfgC1w.FCN cfgC1w.asaBase = none ∧ 1 ≤ cfgC1w.pop ∧
    run cfgC1w = .error .fcnRaised ∧ iterBody cfgC1w stSome = .error .fcnRaised :=
  ⟨rfl, by with_unfolding_all decide,
   C1_eval_failure_fatal.1 cfgC1w rfl (by with_unfolding_all decide),
   C1_eval_failure_fatal.2 cfgC1w stSome [2] (fun _ => rfl) rfl
     (by with_unfolding_all decide)⟩

/-- Counterexample for C1 as stated: a run whose evaluator signals a
failure does not continue with a sentinel fitness; it aborts with the
propagated exception. -/
theorem C1_counterexample : run cfgC1x = .error .fcnRaised := by
  with_unfolding_all rfl

/-- Claim C2 (corrected).  The claim says a cap of `M` yields exactly `M`
main-loop iterations.  The counter starts at `k = 2` (initialisation is
iteration 1 in the MATLAB-style counting) and the loop stops after the
body in which `k >= itermax`, so exactly `M - 1` main-loop iterations
execute when the plateau test cannot fire (here: nonpositive tolerance
makes `delta < tol` impossible). -/
theorem C2_itermax_iteration_count (cfg : Config) (st : St)
    (htol : cfg.tol ≤ 0) (hcap : 2 ≤ cfg.itermax) (h : run cfg = .ok st) :
    st.gbestHistory.length = cfg.itermax - 1 := by
  obtain ⟨s0, hinit, hloop⟩ := run_ok h
  have hhist : s0.gbestHistory = [] := (initLoop_facts _ _ _ hinit).2.2.1
  have hcount := loop_count htol _ _ _ hloop rfl (show 2 ≤ cfg.itermax from hcap)
  have hpre : (preLoop s0).gbestHistory = s0.gbestHistory := rfl
  have hpk : (preLoop s0).k = 2 := rfl
  rw [hpre, hhist, hpk] at hcount
  simp only [List.length_nil] at hcount
  omega

/-- Witness for C2: with cap 6 and zero tolerance the run executes
exactly 5 main-loop iterations. -/
theorem C2_itermax_iteration_count_witness :
    cfgC2w.tol ≤ 0 ∧ 2 ≤ cfgC2w.itermax ∧ run cfgC2w = .ok outC2 ∧
    outC2.gbestHistory.length = cfgC2w.itermax - 1 :=
  ⟨le_refl 0, by with_unfolding_all decide, by with_unfolding_all rfl,
   C2_itermax_iteration_count cfgC2w outC2 (le_refl 0)
     (by with_unfolding_all decide) (by with_unfolding_all rfl)⟩

/-- Counterexample for C2 as stated: with `itermax = 5` and a plateau that
can never fire (tolerance 0), the run records 4 main-loop iterations, not
5. -/
theorem C2_counterexample :
    Except.map (fun st => st.gbestHistory.length) (run cfgC2x) = .ok 4 ∧
    Except.map (fun st => st.gbestHistory.length) (run cfgC2x) ≠ .ok 5 := by
  constructor
  · with_unfolding_all rfl
  · intro hc
    have h1 : Except.map (fun st => st.gbestHistory.length) (run cfgC2x) = .ok 4 := by
      with_unfolding_all rfl
    rw [h1] at hc
    injection hc with hc2
    omega

/-- Claim C3 (confirmed).  Boundary invariant: in any completed run whose
Bounds are well-formed and whose seed vector has the configured
dimensionality, every position handed to the objective during the main
loop lies inside the Bounds box, coordinate by coordinate; and the clamp
saturates out-of-range values to the nearest bound (low values to min,
high values to max) and passes in-range values through unchanged — no
rejection, no wrap-around. -/
theorem C3_boundary_invariant :
    (∀ (cfg : Config) (st : St),
      (∀ j, j < cfg.nrvar → cfg.xmin.getD j 0 ≤ cfg.xmax.getD j 0) →
      cfg.asaBase.length = cfg.nrvar →
      run cfg = .ok st → ∀ p ∈ st.evalLog, inBnds cfg p) ∧
    (∀ val lo hi : ℚ, lo ≤ hi →
      (val < lo → npClip val lo hi = lo) ∧ (hi < val → npClip val lo hi = hi) ∧
      (lo ≤ val → val ≤ hi → npClip val lo hi = val)) := by
  constructor
  · intro cfg st hb hlen h p hp
    obtain ⟨s0, hinit, hloop⟩ := run_ok h
    obtain ⟨h1, h2⟩ := initState_inv cfg
    obtain ⟨h3, h4⟩ := initLoop_inv hlen _ _ _ hinit h1 h2
    obtain ⟨_, h8⟩ := loop_inv hb _ _ _ hloop h3 h4
    exact h8 p hp
  · intro val lo hi hle
    refine ⟨?_, ?_, ?_⟩
    · intro hv
      unfold npClip
      rw [max_eq_right (le_of_lt hv), min_eq_left hle]
    · intro hv
      unfold npClip
      rw [max_eq_left (le_trans hle (le_of_lt hv)), min_eq_right (le_of_lt hv)]
    · intro hv1 hv2
      unfold npClip
      rw [max_eq_left hv1, min_eq_left hv2]

/-- Witness for C3: a concrete run whose particles overshoot; the first
logged evaluation position is inside the box, and an overshooting value is
saturated to the upper bound. -/
theorem C3_boundary_invariant_witness :
    inBnds cfgC3w (outC3.evalLog.getD 0 []) ∧ npClip 99 0 4 = 4 :=
  ⟨C3_boundary_invariant.1 cfgC3w outC3 (by with_unfolding_all decide)
      (by with_unfolding_all decide) (by with_unfolding_all rfl)
      (outC3.evalLog.getD 0 []) (by with_unfolding_all decide),
   (C3_boundary_invariant.2 99 0 4 (by norm_num)).2.1 (by norm_num)⟩

/-- Claim C4 (code bug).  The global-best fitness history of a v12 run is
not non-increasing: because the body of round `k` appends a copy of
`gbest[k-2]` at index `k` while the improvement updates write index `k-1`,
round `k` compares candidates against the global best of round `k-2`.
With baseline fitness 50, a round-2 candidate of fitness 0 and a round-3
candidate of fitness 50, the recorded history is `[0, 50, 0]`, and
`history[1] <= history[0]` fails. -/
theorem C4_gbest_history_not_monotone :
    Except.map (fun st => st.gbestHistory) (run cfgC4x) = .ok [0, 50, 0] ∧
    ¬ (([0, 50, 0] : List ℚ).getD 1 0 ≤ ([0, 50, 0] : List ℚ).getD 0 0) := by
  constructor
  · with_unfolding_all rfl
  · with_unfolding_all decide

/-- Claim C5 (confirmed).  (1) The per-dimension update: given an assigned
global best, `dimStep` stores exactly the spec velocity
`ω·v + λ1·r1·(pb − x) + λ2·r2·(gb − x)` with `r1`, `r2` drawn from the
stream at two fresh consecutive indices, advances the draw counter by two
(so no draw is ever shared between (particle, dimension, iteration)
triples), stores the velocity unclamped, and clips only the position.
(2) Each particle step appends exactly one objective evaluation, at that
fully clamped row of that particle, consuming `2·nrvar` fresh draws. -/
theorem C5_update_rule :
    (∀ (cfg : Config) (i j : ℕ) (s : St) (xg : List ℚ), s.xgbest = some xg →
      dimStep cfg i s j = .ok { s with
        v := setCoord s.v i j (specVelocity cfg.omega cfg.lambda1 cfg.lambda2
          (cfg.rng s.rngIdx) (cfg.rng (s.rngIdx + 1)) (getCoord s.v i j)
          (getCoord s.x i j) (getCoord s.xlbest i j) (xg.getD j 0)),
        x := setCoord s.x i j (npClip (getCoord s.x i j
          + specVelocity cfg.omega cfg.lambda1 cfg.lambda2
            (cfg.rng s.rngIdx) (cfg.rng (s.rngIdx + 1)) (getCoord s.v i j)
            (getCoord s.x i j) (getCoord s.xlbest i j) (xg.getD j 0))
          (cfg.xmin.getD j 0) (cfg.xmax.getD j 0)),
        rngIdx := s.rngIdx + 2 }) ∧
    (∀ (cfg : Config) (s t : St) (i : ℕ), particleStep cfg s i = .ok t →
      t.evalLog = s.evalLog ++ [t.x.getD i []] ∧ t.rngIdx = s.rngIdx + 2 * cfg.nrvar) := by
  constructor
  · intro cfg i j s xg h
    simp only [dimStep, h, specVelocity]
  · intro cfg s t i h
    obtain ⟨u, y, hd, hf, rfl⟩ := particleStep_shape h
    obtain ⟨⟨e1, _, _, _, _, _, _, _, _, _, _, _⟩, hr⟩ := dimLoop_fixed _ _ _ hd
    constructor
    · show u.evalLog ++ [u.x.getD i []] = s.evalLog ++ [u.x.getD i []]
      rw [e1]
    · show u.rngIdx = s.rngIdx + 2 * cfg.nrvar
      rw [hr, List.length_range]

/-- Witness for C5 at a concrete state and configuration. -/
theorem C5_update_rule_witness :
    stSome.xgbest = some [2] ∧
    particleStep cfgC5w stSome 0 = .ok outC5p ∧
    outC5p.evalLog = stSome.evalLog ++ [outC5p.x.getD 0 []] ∧
    outC5p.rngIdx = stSome.rngIdx + 2 * cfgC5w.nrvar ∧
    dimStep cfgC5w 0 stSome 0 = .ok { stSome with
      v := setCoord stSome.v 0 0 (specVelocity cfgC5w.omega cfgC5w.lambda1 cfgC5w.lambda2
        (cfgC5w.rng stSome.rngIdx) (cfgC5w.rng (stSome.rngIdx + 1)) (getCoord stSome.v 0 0)
        (getCoord stSome.x 0 0) (getCoord stSome.xlbest 0 0) (([2] : List ℚ).getD 0 0)),
      x := setCoord stSome.x 0 0 (npClip (getCoord stSome.x 0 0
        + specVelocity cfgC5w.omega cfgC5w.lambda1 cfgC5w.lambda2
          (cfgC5w.rng stSome.rngIdx) (cfgC5w.rng (stSome.rngIdx + 1)) (getCoord stSome.v 0 0)
          (getCoord stSome.x 0 0) (getCoord stSome.xlbest 0 0) (([2] : List ℚ).getD 0 0))
        (cfgC5w.xmin.getD 0 0) (cfgC5w.xmax.getD 0 0)),
      rngIdx := stSome.rngIdx + 2 } :=
  ⟨rfl, by with_unfolding_all rfl,
   (C5_update_rule.2 cfgC5w stSome outC5p 0 (by with_unfolding_all rfl)).1,
   (C5_update_rule.2 cfgC5w stSome outC5p 0 (by with_unfolding_all rfl)).2,
   C5_update_rule.1 cfgC5w 0 0 stSome [2] rfl⟩

/-- Claim C7 (corrected).  The claim says invalid configurations are
rejected at construction time.  No validation exists: a configuration
whose dimension-0 Bounds have min = 4 > 2 = max is accepted and runs to
completion (positions saturating at the numpy-clip value, the max bound),
and a population of size 0 is accepted too, failing only mid-way through
the first loop body with the unrelated NameError on `xgbest` — not with a
configuration error before the run. -/
theorem C7_no_construction_validation :
    cfgC7x.xmax.getD 0 0 < cfgC7x.xmin.getD 0 0 ∧
    Except.map (fun st => (st.gbestHistory.length, st.x)) (run cfgC7x) = .ok (2, [[2]]) ∧
    cfgC7pop.pop < 1 ∧ run cfgC7pop = .error .nameXgbest := by
  refine ⟨?_, ?_, ?_, ?_⟩
  · with_unfolding_all decide
  · with_unfolding_all rfl
  · with_unfolding_all decide
  · with_unfolding_all rfl

/-- Counterexample for C7 as stated: the min > max configuration is not
refused; its run completes with a non-empty history. -/
theorem C7_counterexample :
    Except.map (fun st => st.gbestHistory.length) (run cfgC7x) = .ok 2 := by
  with_unfolding_all rfl

/-- Claim C8 (confirmed).  Every completed run has a non-empty history:
the flag is cleared before the `while` loop, so at least one body always
runs, and the body appends its history entry before any stopping check. -/
theorem C8_at_least_one_iteration (cfg : Config) (st : St) (h : run cfg = .ok st) :
    1 ≤ st.gbestHistory.length := by
  obtain ⟨s0, hinit, hloop⟩ := run_ok h
  rw [show cfg.itermax + 2 = (cfg.itermax + 1) + 1 from rfl, loop_succ] at hloop
  rw [if_neg (by simp [show (preLoop s0).flag = false from rfl])] at hloop
  cases hb : iterBody cfg (preLoop s0) with
  | error e => rw [hb, error_bind] at hloop; injection hloop
  | ok s2 =>
    rw [hb, ok_bind] at hloop
    have h1 := (iterBody_k_hist hb).2.1
    have h2 := loop_hist_mono _ _ _ hloop
    omega

/-- Witness for C8: an iteration cap of 0 still produces one recorded
iteration. -/
theorem C8_at_least_one_iteration_witness :
    run cfgC8w = .ok outC8 ∧ cfgC8w.itermax = 0 ∧ 1 ≤ outC8.gbestHistory.length :=
  ⟨by with_unfolding_all rfl, rfl,
   C8_at_least_one_iteration cfgC8w outC8 (by with_unfolding_all rfl)⟩

/-- Claim C9 (confirmed).  If every evaluation returns a fitness that is
not strictly below the `1e30` placeholder, the strict-improvement branch
never fires, `xgbest` is never assigned, and the first velocity update of
the first main-loop body reads the undefined name: the run ends in the
NameError instead of completing.  Completing a run therefore requires
some initialisation fitness strictly below `1e30`. -/
theorem C9_unassigned_gbest_name_error (cfg : Config)
    (h1 : ∀ p y, cfg.FCN p = some y → ¬ y < 10 ^ 30)
    (h2 : ∀ p, ∃ y, cfg.FCN p = some y)
    (hpop : 1 ≤ cfg.pop) (hnr : 1 ≤ cfg.nrvar) :
    run cfg = .error .nameXgbest := by
  obtain ⟨s0, hs0⟩ := initLoop_total h2 (List.range cfg.pop) (initState cfg)
  obtain ⟨hx, _, _⟩ := initLoop_noBest h1 _ _ _ hs0 rfl rfl rfl
  unfold run runInit
  rw [hs0, ok_bind]
  rw [show cfg.itermax + 2 = (cfg.itermax + 1) + 1 from rfl]
  simp only [loop]
  rw [if_neg (by simp [show (preLoop s0).flag = false from rfl])]
  rw [iterBody_noXgbest (show (preLoop s0).xgbest = none from hx) hpop hnr, error_bind]

/-- Witness for C9: an evaluator constantly returning exactly `1e30`
leaves the placeholder untouched and the run dies with the NameError. -/
theorem C9_unassigned_gbest_name_error_witness :
    1 ≤ cfgC9w.pop ∧ 1 ≤ cfgC9w.nrvar ∧ run cfgC9w = .error .nameXgbest :=
  ⟨by with_unfolding_all decide, by with_unfolding_all decide,
   C9_unassigned_gbest_name_error cfgC9w
     (fun p y h => by
       have h3 : (10 : ℚ) ^ 30 = y := Option.some.inj h
       rw [← h3]
       exact lt_irrefl _)
     (fun _ => ⟨10 ^ 30, rfl⟩)
     (by with_unfolding_all decide) (by with_unfolding_all decide)⟩

/-- Claim C10 (confirmed).  Asynchronous global-best propagation: in the
C10 run, during the first main-loop iteration particle 0 moves from 4 to
3 and improves the global best (fitness 5 < 10); particle 1 (initial
position 1, zero velocity, r1 = 0, r2 = 1/2, ω = 0) is then updated with
the NEW global best 3 of the same iteration, giving stored velocity
`specVelocity 0 1 1 0 (1/2) 0 1 1 3 = 1` and position 2 — whereas the
deferred (synchronous) rule using the iteration-start global best 1 would
give velocity 0.  The engine output matches the asynchronous value. -/
theorem C10_async_gbest_propagation :
    Except.map (fun st => (st.x, st.v, st.xgbest)) (run cfgC10x)
      = .ok ([[3], [2]], [[-1], [1]], some [3]) ∧
    specVelocity cfgC10x.omega cfgC10x.lambda1 cfgC10x.lambda2 0 (1/2) 0 1 1 3 = 1 ∧
    specVelocity cfgC10x.omega cfgC10x.lambda1 cfgC10x.lambda2 0 (1/2) 0 1 1 1 ≠ 1 := by
  refine ⟨?_, ?_, ?_⟩
  · with_unfolding_all rfl
  · with_unfolding_all decide
  · with_unfolding_all decide


theorem C6_dimLoop (c tol : ℚ) (M : ℕ) (L G : List ℚ) (xg : Option (List ℚ))
    (k : ℕ) (fl : Bool) (H : List ℚ) (R : ℕ) (IL EL : List (List ℚ))
    (hxg : xg = some [2, 0, 0, 0, 0]) :
    dimLoop (cfgC6 c tol M) 0 (List.range (cfgC6 c tol M).nrvar)
      ⟨[[2, 0, 0, 0, 0]], [[0, 0, 0, 0, 0]], L, [[2, 0, 0, 0, 0]], G, xg, k, fl, H, R, IL, EL⟩
      = .ok ⟨[[2, 0, 0, 0, 0]], [[0, 0, 0, 0, 0]], L, [[2, 0, 0, 0, 0]], G, xg, k, fl, H,
          R + 10, IL, EL⟩ := by
  subst hxg
  have hr5 : List.range (cfgC6 c tol M).nrvar = [0, 1, 2, 3, 4] := by with_unfolding_all rfl
  rw [hr5]
  norm_num [dimLoop, dimStep, getCoord, setCoord, npClip, cfgC6, ok_bind]

theorem C6_particle (c tol : ℚ) (M : ℕ) (m : ℕ) :
    particleStep (cfgC6 c tol M)
      ⟨[[2, 0, 0, 0, 0]], [[0, 0, 0, 0, 0]], [c], [[2, 0, 0, 0, 0]], List.replicate (m + 3) c,
        some [2, 0, 0, 0, 0], m + 2, false, List.replicate m c, 10 * m,
        [[2, 0, 0, 0, 0]], List.replicate m [2, 0, 0, 0, 0]⟩ 0
      = .ok ⟨[[2, 0, 0, 0, 0]], [[0, 0, 0, 0, 0]], [c], [[2, 0, 0, 0, 0]],
        List.replicate (m + 3) c, some [2, 0, 0, 0, 0], m + 2, false, List.replicate m c,
        10 * m + 10, [[2, 0, 0, 0, 0]], List.replicate m [2, 0, 0, 0, 0] ++ [[2, 0, 0, 0, 0]]⟩ := by
  simp only [particleStep]
  rw [C6_dimLoop c tol M [c] (List.replicate (m + 3) c) _ (m + 2) false (List.replicate m c)
      (10 * m) [[2, 0, 0, 0, 0]] (List.replicate m [2, 0, 0, 0, 0]) rfl, ok_bind]
  have e2 : (List.replicate (m + 3) c).getD (m + 2 - 1) 0 = c := by
    rw [show m + 2 - 1 = m + 1 from by omega]
    exact list_getD_replicate _ _ _ _ (by omega)
  norm_num [cfgC6, e2]

theorem plateauHit_short (l : List ℚ) (tol : ℚ) (h : l.length < 10) :
    plateauHit l tol = false := by
  unfold plateauHit
  rw [if_neg (by omega)]

theorem mean_replicate_five (c : ℚ) : mean (List.replicate 5 c) = c := by
  show ((c + (c + (c + (c + (c + 0))))) / (5 : ℚ)) = c
  ring

theorem C6_plateau (c tol : ℚ) (htol : 0 < tol) :
    plateauHit (List.replicate 10 c) tol = true := by
  unfold plateauHit
  rw [if_pos (by simp)]
  show decide (|mean (List.replicate 10 c |>.drop ((List.replicate 10 c).length - 5))
    - mean ((List.replicate 10 c |>.drop ((List.replicate 10 c).length - 10)).take 5)| < tol)
    = true
  have h1 : (List.replicate 10 c).drop ((List.replicate 10 c).length - 5)
      = List.replicate 5 c := rfl
  have h2 : ((List.replicate 10 c).drop ((List.replicate 10 c).length - 10)).take 5
      = List.replicate 5 c := rfl
  rw [h1, h2, mean_replicate_five, sub_self, abs_zero]
  exact decide_eq_true htol

theorem C6_body_lt (c tol : ℚ) (M : ℕ) (hM : 12 ≤ M) (m : ℕ) (hm : m ≤ 8) :
    iterBody (cfgC6 c tol M) (stC6 c m) = .ok (stC6 c (m + 1)) := by
  have hrp : List.range (cfgC6 c tol M).pop = [0] := by with_unfolding_all rfl
  have e1 : List.replicate (m + 2) c ++ [(List.replicate (m + 2) c).getD (m + 2 - 2) 0]
      = List.replicate (m + 3) c := by
    rw [show m + 2 - 2 = m from by omega, list_getD_replicate _ _ _ _ (by omega),
      list_replicate_snoc]
  have e3 : (List.replicate (m + 3) c).getD (m + 2 - 1) 0 = c := by
    rw [show m + 2 - 1 = m + 1 from by omega]
    exact list_getD_replicate _ _ _ _ (by omega)
  have e4 : List.replicate m c ++ [c] = List.replicate (m + 1) c := list_replicate_snoc c m
  have e5 : plateauHit (List.replicate (m + 1) c) tol = false :=
    plateauHit_short _ _ (by simp; omega)
  have e6 : ¬ (cfgC6 c tol M).itermax ≤ m + 2 := by
    show ¬ M ≤ m + 2
    omega
  simp only [iterBody, stC6, hrp, e1, particleLoop]
  rw [C6_particle c tol M m]
  simp only [ok_bind, e3, e4]
  rw [show (cfgC6 c tol M).tol = tol from rfl, e5]
  simp only [Bool.false_eq_true, if_false]
  rw [if_neg e6]
  norm_num [St.mk.injEq, list_replicate_snoc]
  omega

theorem C6_body_last (c tol : ℚ) (M : ℕ) (htol : 0 < tol) :
    iterBody (cfgC6 c tol M) (stC6 c 9) = .ok (stC6final c) := by
  have hrp : List.range (cfgC6 c tol M).pop = [0] := by with_unfolding_all rfl
  have e1 : List.replicate (9 + 2) c ++ [(List.replicate (9 + 2) c).getD (9 + 2 - 2) 0]
      = List.replicate (9 + 3) c := by
    rw [show 9 + 2 - 2 = 9 from by omega, list_getD_replicate _ _ _ _ (by omega),
      list_replicate_snoc]
  have e3 : (List.replicate (9 + 3) c).getD (9 + 2 - 1) 0 = c := by
    rw [show 9 + 2 - 1 = 9 + 1 from by omega]
    exact list_getD_replicate _ _ _ _ (by omega)
  have e4 : List.replicate 9 c ++ [c] = List.replicate 10 c := list_replicate_snoc c 9
  have e5 : plateauHit (List.replicate 10 c) tol = true := C6_plateau c tol htol
  simp only [iterBody, stC6, hrp, e1, particleLoop]
  rw [C6_particle c tol M 9]
  simp only [ok_bind, e3, e4]
  rw [show (cfgC6 c tol M).tol = tol from rfl, e5]
  norm_num [stC6final, stC6, St.mk.injEq, list_replicate_snoc]

theorem C6_loop (c tol : ℚ) (M : ℕ) (hM : 12 ≤ M) (htol : 0 < tol) :
    ∀ (d m n : ℕ), m + d = 9 → d + 2 ≤ n →
      loop (cfgC6 c tol M) n (stC6 c m) = .ok (stC6final c) := by
  intro d
  induction d with
  | zero =>
    intro m n hmd hn
    obtain ⟨n2, rfl⟩ : ∃ n2, n = n2 + 1 := ⟨n - 1, by omega⟩
    rw [loop_succ, if_neg (by simp [show (stC6 c m).flag = false from rfl])]
    have hm9 : m = 9 := by omega
    subst hm9
    rw [C6_body_last c tol M htol, ok_bind]
    exact loop_flagged (show (stC6final c).flag = true from rfl) n2
  | succ d2 ih =>
    intro m n hmd hn
    obtain ⟨n2, rfl⟩ : ∃ n2, n = n2 + 1 := ⟨n - 1, by omega⟩
    rw [loop_succ, if_neg (by simp [show (stC6 c m).flag = false from rfl])]
    rw [C6_body_lt c tol M hM m (by omega), ok_bind]
    exact ih (m + 1) n2 (by omega) (by omega)

theorem C6_runInit (c tol : ℚ) (M : ℕ) (hc : c < 10 ^ 30) :
    runInit (cfgC6 c tol M) = .ok
      ⟨[[2, 0, 0, 0, 0]], [[0, 0, 0, 0, 0]], [c], [[2, 0, 0, 0, 0]], [c],
        some [2, 0, 0, 0, 0], 1, false, [], 0, [[2, 0, 0, 0, 0]], []⟩ := by
  have hrp : List.range (cfgC6 c tol M).pop = [0] := by with_unfolding_all rfl
  unfold runInit
  rw [hrp]
  simp only [initLoop, initStep]
  norm_num [initState, cfgC6, ok_bind]
  have hc2 : c < 1000000000000000000000000000000 := by
    have h30 : (10 : ℚ) ^ 30 = 1000000000000000000000000000000 := by norm_num
    rw [← h30]
    exact hc
  rw [if_pos hc2]
  norm_num [List.replicate, St.mk.injEq]

/-- Claim C6 (confirmed).  Plateau detection: the stagnation test only
activates once at least 2W = 10 iterations of global-best history exist,
and then compares the mean of the most recent W = 5 entries with the mean
of the 5 entries immediately preceding them (non-overlapping windows),
stopping when the absolute difference is below the tolerance.  With a
deterministic evaluator returning the constant fitness `c` on every call,
a positive tolerance and a cap of at least 12, the run stops exactly
after 10 = 2W main-loop iterations, not later. -/
theorem C6_plateau_stops_at_2W (c tol : ℚ) (M : ℕ)
    (hc : c < 10 ^ 30) (htol : 0 < tol) (hM : 12 ≤ M) :
    Except.map (fun st => st.gbestHistory.length) (run (cfgC6 c tol M)) = .ok 10 := by
  unfold run
  rw [C6_runInit c tol M hc, ok_bind]
  have hpre : preLoop ⟨[[2, 0, 0, 0, 0]], [[0, 0, 0, 0, 0]], [c], [[2, 0, 0, 0, 0]], [c],
      some [2, 0, 0, 0, 0], 1, false, [], 0, [[2, 0, 0, 0, 0]], []⟩ = stC6 c 0 := rfl
  rw [hpre]
  rw [C6_loop c tol M hM htol 9 0 ((cfgC6 c tol M).itermax + 2) (by omega)
    (show 9 + 2 ≤ M + 2 by omega)]
  rfl

/-- Witness for C6 at the constant fitness 7, tolerance 1/1000, cap 42. -/
theorem C6_plateau_stops_at_2W_witness :
    (7 : ℚ) < 10 ^ 30 ∧ (0 : ℚ) < 1/1000 ∧ 12 ≤ 42 ∧
    Except.map (fun st => st.gbestHistory.length) (run (cfgC6 7 (1/1000) 42)) = .ok 10 :=
  ⟨by norm_num, by norm_num, by norm_num,
   C6_plateau_stops_at_2W 7 (1/1000) 42 (by norm_num) (by norm_num) (by norm_num)⟩

end PSO
